import Mathlib

/-!
Verification development for the nWave release tooling:
`scripts/release/discover_tag.py` (tag discovery over PEP 440 versions) and
`scripts/release/generate_changelog.py` (conventional-commit classification
and markdown rendering).

The Python scripts depend on `packaging.version.Version`; the first part of
this file embeds that parser (regex `VERSION_PATTERN`, normalization rules
from `_parse_letter_version` / `_parse_local_version`) and its comparison
key (`_cmpkey`) for the ASCII fragment that version strings live in.
-/

namespace NWave

/-- ASCII fragment of Python's whitespace class (`str.strip` / regex `\s`). -/
def isPyWs (c : Char) : Bool :=
  c = ' ' || c = '\t' || c = '\n' || c = '\r' || c = '\x0b' || c = '\x0c'

def isDigitC (c : Char) : Bool :=
  '0' ≤ c && c ≤ '9'

def isLowerAlpha (c : Char) : Bool :=
  'a' ≤ c && c ≤ 'z'

/-- `[a-z0-9]` as it applies after lowercasing (regex is IGNORECASE). -/
def isAlnumLower (c : Char) : Bool :=
  isDigitC c || isLowerAlpha c

/-- Separator class `[-_.]` used between version components. -/
def isSepC (c : Char) : Bool :=
  c = '-' || c = '_' || c = '.'

/-- Decimal digits to a natural number (Python `int` of a digit string). -/
def digitsToNat (ds : List Char) : Nat :=
  ds.foldl (fun a c => 10 * a + (c.toNat - '0'.toNat)) 0

/-- Python `str.strip()` restricted to ASCII whitespace. -/
def pyStripList (cs : List Char) : List Char :=
  ((cs.dropWhile isPyWs).reverse.dropWhile isPyWs).reverse

def pyStrip (s : String) : String :=
  String.mk (pyStripList s.data)

/-- Normalized pre-release letters (`_parse_letter_version` output):
`alpha`→`a`, `beta`→`b`, `c`/`pre`/`preview`→`rc`. -/
inductive PreLetter
  | a
  | b
  | rc
deriving DecidableEq, Repr

def PreLetter.str : PreLetter → String
  | .a => "a"
  | .b => "b"
  | .rc => "rc"

/-- Rank matching Python string comparison of the normalized letters:
`"a" < "b" < "rc"`. -/
def PreLetter.rank : PreLetter → Nat
  | .a => 0
  | .b => 1
  | .rc => 2

/-- One segment of a local version (`_parse_local_version`): lowercased
string, or an integer when the segment is all digits. -/
inductive LocalSeg
  | str (s : List Char)
  | num (n : Nat)
deriving DecidableEq, Repr

/-- The parsed `packaging.version.Version` data (`_Version` named tuple),
with `pre`/`post`/`dev` already normalized: `pre = (letter, n)`,
`post = n` (letter always `"post"`), `dev = n` (letter always `"dev"`). -/
structure PyVersion where
  epoch : Nat
  release : List Nat
  pre : Option (PreLetter × Nat)
  post : Option Nat
  dev : Option Nat
  localSegs : Option (List LocalSeg)
deriving DecidableEq, Repr, Inhabited

/-! ### Recursive-descent embedding of the anchored `VERSION_PATTERN` regex

The regex is deterministic in the greedy sense for every component: each
optional group either consumes its full extent or is absent, and ordered
alternation of the letter words matches the regex engine's preference.
-/

/-- Epoch group `(?:(?P<epoch>[0-9]+)!)?`; absent epoch is 0. -/
def parseEpoch (cs : List Char) : Nat × List Char :=
  match cs.span isDigitC with
  | ([], _) => (0, cs)
  | (ds, rest) =>
    match rest with
    | '!' :: rest' => (digitsToNat ds, rest')
    | _ => (0, cs)

/-- Remaining release groups `(?:\.[0-9]+)*` after the first number. -/
def parseDotNums : Nat → List Char → List Nat × List Char
  | 0, cs => ([], cs)
  | fuel + 1, cs =>
    match cs with
    | '.' :: rest =>
      match rest.span isDigitC with
      | ([], _) => ([], cs)
      | (ds, rest') =>
        let (ns, r) := parseDotNums fuel rest'
        (digitsToNat ds :: ns, r)
    | _ => ([], cs)

/-- First word of `words` (regex ordered alternation) that prefixes `cs`. -/
def parseWord (words : List (List Char)) (cs : List Char) :
    Option (List Char × List Char) :=
  match words with
  | [] => none
  | w :: ws =>
    if w.isPrefixOf cs then some (w, cs.drop w.length)
    else parseWord ws cs

/-- A letter group `[-_.]? (word alternation) [-_.]? ([0-9]+)?` shared by the
pre, letter-post and dev groups. Returns the matched word, the optional
number, and the rest; `none` when no word matches (nothing consumed). -/
def parseLetterGroup (words : List (List Char)) (cs : List Char) :
    Option (List Char × Option Nat × List Char) :=
  let cs1 := match cs with
    | c :: rest => if isSepC c then rest else cs
    | [] => cs
  match parseWord words cs1 with
  | none => none
  | some (w, rest1) =>
    let rest2 := match rest1 with
      | c :: r => if isSepC c then r else rest1
      | [] => rest1
    match rest2.span isDigitC with
    | ([], _) => some (w, none, rest2)
    | (ds, rest3) => some (w, some (digitsToNat ds), rest3)

/-- Pre-release group: words in the regex's alternation order
`alpha|a|beta|b|preview|pre|c|rc`, normalized per `_parse_letter_version`
(missing number means 0). -/
def parsePre (cs : List Char) : Option (PreLetter × Nat) × List Char :=
  match parseLetterGroup
      [['a','l','p','h','a'], ['a'], ['b','e','t','a'], ['b'],
       ['p','r','e','v','i','e','w'], ['p','r','e'], ['c'], ['r','c']] cs with
  | none => (none, cs)
  | some (w, n, rest) =>
    let letter : PreLetter :=
      if w = ['a','l','p','h','a'] || w = ['a'] then .a
      else if w = ['b','e','t','a'] || w = ['b'] then .b
      else .rc
    (some (letter, n.getD 0), rest)

/-- Post-release group: `(?:-(?P<post_n1>[0-9]+))` first, else
`[-_.]?(post|rev|r)[-_.]?([0-9]+)?` (all normalized to `post`, missing
number 0). -/
def parsePost (cs : List Char) : Option Nat × List Char :=
  let letterForm : Option Nat × List Char :=
    match parseLetterGroup
        [['p','o','s','t'], ['r','e','v'], ['r']] cs with
    | none => (none, cs)
    | some (_, n, rest) => (some (n.getD 0), rest)
  match cs with
  | '-' :: rest =>
    match rest.span isDigitC with
    | ([], _) => letterForm
    | (ds, rest') => (some (digitsToNat ds), rest')
  | _ => letterForm

/-- Dev-release group `[-_.]?dev[-_.]?([0-9]+)?` (missing number 0). -/
def parseDev (cs : List Char) : Option Nat × List Char :=
  match parseLetterGroup [['d','e','v']] cs with
  | none => (none, cs)
  | some (_, n, rest) => (some (n.getD 0), rest)

/-- One local segment: integer when all digits, else the string. -/
def mkLocalSeg (cs : List Char) : LocalSeg :=
  if cs.all isDigitC then .num (digitsToNat cs) else .str cs

/-- Further local segments `(?:[-_.][a-z0-9]+)*`. -/
def parseLocalLoop : Nat → List Char → List LocalSeg × List Char
  | 0, cs => ([], cs)
  | fuel + 1, cs =>
    match cs with
    | c :: rest =>
      if isSepC c then
        match rest.span isAlnumLower with
        | ([], _) => ([], cs)
        | (seg, rest') =>
          let (segs, r) := parseLocalLoop fuel rest'
          (mkLocalSeg seg :: segs, r)
      else ([], cs)
    | [] => ([], [])

/-- `packaging.version.Version(raw)`: strip surrounding whitespace, match
the IGNORECASE anchored `VERSION_PATTERN` (modelled by lowercasing first),
normalize.  `none` is `InvalidVersion`. -/
def pyVersionParse (raw : String) : Option PyVersion :=
  let cs0 := pyStripList (raw.data.map Char.toLower)
  let cs1 := match cs0 with
    | 'v' :: rest => rest
    | _ => cs0
  let (epoch, cs2) := parseEpoch cs1
  match cs2.span isDigitC with
  | ([], _) => none
  | (ds, cs3) =>
    let (moreNums, cs4) := parseDotNums cs3.length cs3
    let release := digitsToNat ds :: moreNums
    let (pre, cs5) := parsePre cs4
    let (post, cs6) := parsePost cs5
    let (dev, cs7) := parseDev cs6
    match cs7 with
    | [] => some ⟨epoch, release, pre, post, dev, none⟩
    | '+' :: cs8 =>
      match cs8.span isAlnumLower with
      | ([], _) => none
      | (seg, rest) =>
        let (segs, r) := parseLocalLoop rest.length rest
        if r = [] then
          some ⟨epoch, release, pre, post, dev, some (mkLocalSeg seg :: segs)⟩
        else none
    | _ => none

/-- `_parse_tag` from `discover_tag.py`: `tag.lstrip("v")` (all leading
lowercase `v` characters) then `Version(...)`, `None` on `InvalidVersion`. -/
def parseTag (tag : String) : Option PyVersion :=
  pyVersionParse (String.mk (tag.data.dropWhile (· = 'v')))

/-! ### `Version.__str__` (normalized form) -/

def localSegStr : LocalSeg → String
  | .str s => String.mk s
  | .num n => toString n

/-- Python `"." .join(...)` (left-fold join with a separator). -/
def pyJoin (sep : String) : List String → String
  | [] => ""
  | [x] => x
  | x :: y :: xs => x ++ sep ++ pyJoin sep (y :: xs)

/-- `str(Version)`: epoch (when nonzero), release joined by `.`, pre as
`letter ++ n`, post as `.postN`, dev as `.devN`, local after `+`. -/
def PyVersion.str (v : PyVersion) : String :=
  (if v.epoch ≠ 0 then toString v.epoch ++ "!" else "")
    ++ pyJoin "." (v.release.map toString)
    ++ (match v.pre with
        | some (l, n) => l.str ++ toString n
        | none => "")
    ++ (match v.post with
        | some n => ".post" ++ toString n
        | none => "")
    ++ (match v.dev with
        | some n => ".dev" ++ toString n
        | none => "")
    ++ (match v.localSegs with
        | some segs => "+" ++ pyJoin "." (segs.map localSegStr)
        | none => "")

/-! ### `_cmpkey`: the total order on parsed versions

Python's `_cmpkey` compares the tuple (epoch, release-without-trailing-
zeros, pre-with-sentinels, post-with-sentinel, dev-with-sentinel,
local-with-sentinel) lexicographically.  We embed it as a value of a
nested lexicographic order (`Lex`-products, `WithBot` = `NegativeInfinity`,
`WithTop` = `Infinity`), so Mathlib's `LinearOrder` instances provide the
order laws. -/

/-- pre component: `NegativeInfinity` (⊥) when no pre/post but a dev,
`Infinity` (⊤) when no pre otherwise, else the (letter, number) pair
compared letter-first (Python compares the letter strings). -/
abbrev PreKey := WithBot (WithTop (Lex (Nat × Nat)))

/-- One local segment: integer segments `(i, "")` sort above string
segments `(NegativeInfinity, s)`; encoded as (tier, chars, value). -/
abbrev SegKey := Lex (Nat × Lex (List Char × Nat))

abbrev LocalKey := WithBot (List SegKey)

abbrev VKey :=
  Lex (Nat × Lex (List Nat × Lex (PreKey × Lex (WithBot Nat × Lex (WithTop Nat × LocalKey)))))

/-- `_cmpkey`: drop trailing zeros of the release tuple. -/
def stripTrailingZeros (l : List Nat) : List Nat :=
  (l.reverse.dropWhile (· = 0)).reverse

def preKey (v : PyVersion) : PreKey :=
  match v.pre with
  | some (l, n) => ((((toLex (l.rank, n) : Lex (Nat × Nat)) : WithTop (Lex (Nat × Nat)))) : PreKey)
  | none =>
    if v.post = none ∧ v.dev ≠ none then (⊥ : PreKey)
    else (((⊤ : WithTop (Lex (Nat × Nat)))) : PreKey)

def postKey (v : PyVersion) : WithBot Nat :=
  match v.post with
  | some n => (n : WithBot Nat)
  | none => ⊥

def devKey (v : PyVersion) : WithTop Nat :=
  match v.dev with
  | some n => (n : WithTop Nat)
  | none => ⊤

def segKey : LocalSeg → SegKey
  | .num n => toLex (1, toLex (([] : List Char), n))
  | .str s => toLex (0, toLex (s, 0))

def localKey (v : PyVersion) : LocalKey :=
  match v.localSegs with
  | some segs => ((segs.map segKey : List SegKey) : LocalKey)
  | none => ⊥

/-- The full `_cmpkey`; `Version.__lt__` etc. compare these keys. -/
def vkey (v : PyVersion) : VKey :=
  toLex (v.epoch, toLex (stripTrailingZeros v.release,
    toLex (preKey v, toLex (postKey v, toLex (devKey v, localKey v)))))

/-! ### `discover_tag.py` engine -/

/-- One emitted JSON payload + exit code: `_output_success` (exit 0),
`_output_not_found` (exit 1), `_output_error` (exit 2). -/
inductive Output
  | success (tag version : String) (commitsBehind : Option Nat)
  | notFound (error : String)
  | invalidInput (error : String)
deriving DecidableEq, Repr

def exitCode : Output → Nat
  | .success .. => 0
  | .notFound _ => 1
  | .invalidInput _ => 2

/-- `_is_dev_tag`: `version.dev is not None`. -/
def isDevTag (v : PyVersion) : Bool := v.dev.isSome

/-- `_is_rc_tag`: `version.pre is not None and version.pre[0] == "rc"`. -/
def isRcTag (v : PyVersion) : Bool :=
  match v.pre with
  | some (l, _) => l = .rc
  | none => false

/-- `_filter_by_pattern`: keep tags that parse and satisfy the stage
predicate, as (original tag, parsed version) pairs, in input order. -/
def filterByPattern (tags : List String) (pattern : String) :
    List (String × PyVersion) :=
  let matcher := if pattern = "dev" then isDevTag else isRcTag
  tags.filterMap fun tag =>
    match parseTag tag with
    | some parsed => if matcher parsed then some (tag, parsed) else none
    | none => none

/-- Python `s.split(sep)` for a nonempty separator: left-to-right,
non-overlapping; adjacent separators give empty fields.  (Fuel-structured
so the kernel can evaluate it; the fuel never runs out when it starts at
the input length.) -/
def pySplitAux (sep : List Char) : Nat → List Char → List Char → List (List Char)
  | _, [], acc => [acc.reverse]
  | 0, cs, acc => [acc.reverse ++ cs]
  | fuel + 1, c :: cs, acc =>
    if sep.isPrefixOf (c :: cs) then
      acc.reverse :: pySplitAux sep fuel ((c :: cs).drop sep.length) []
    else
      pySplitAux sep fuel cs (c :: acc)

def pySplit (s sep : String) : List String :=
  (pySplitAux sep.data s.data.length s.data []).map String.mk

/-- `_split_tag_list`: split on commas, strip, drop empties. -/
def splitTagList (s : String) : List String :=
  ((pySplit s ",").map pyStrip).filter (· ≠ "")

def stageGuidance (pattern : String) : String :=
  if pattern = "dev" then "No dev tags found. Run Stage 1 (Dev Release) first."
  else "No rc tags found. Run Stage 2 (RC Release) first."

/-- Python `max(matched, key=lambda pair: pair[1])`: left fold keeping the
first element, replacing only on strictly greater. -/
def maxByVKey (hd : String × PyVersion) (tl : List (String × PyVersion)) :
    String × PyVersion :=
  tl.foldl (fun acc p => if vkey acc.2 < vkey p.2 then p else acc) hd

/-- `discover`: the highest matching tag, reconstructed as
`f"v{highest_version}"`.  `git rev-list` is an I/O collaborator, modelled
by the oracle `gitBehind`. -/
def discover (tags : List String) (pattern : String) (useGit : Bool)
    (gitBehind : String → Option Nat) : Output :=
  match filterByPattern tags pattern with
  | [] => .notFound (stageGuidance pattern)
  | hd :: tl =>
    let highest := (maxByVKey hd tl).2
    let tagStr := "v" ++ highest.str
    let staleness := if useGit then gitBehind tagStr else none
    .success tagStr highest.str staleness

/-- `validate`: membership of the exact target plus parseability; the
not-found branch is reached both on absence and on parse failure. -/
def validate (tags : List String) (target : String) : Output :=
  if target ∈ tags then
    match parseTag target with
    | some parsed => .success target parsed.str none
    | none => .notFound ("Tag '" ++ target ++ "' not found in tag list.")
  else .notFound ("Tag '" ++ target ++ "' not found in tag list.")

/-- `main`: pattern check, then tag source selection (`git tag -l` oracle
vs explicit `--tag-list`), then validate or discover.  `use_git` is true
exactly when `--tag-list` was omitted. -/
def mainModel (pattern : String) (validateArg : Option String)
    (tagListArg : Option String) (gitTags : List String)
    (gitBehind : String → Option Nat) : Output :=
  if pattern = "dev" ∨ pattern = "rc" then
    let useGit := tagListArg.isNone
    let tags := match tagListArg with
      | none => gitTags
      | some s => splitTagList s
    match validateArg with
    | some target => validate tags target
    | none => discover tags pattern useGit gitBehind
  else
    .invalidInput ("Invalid pattern '" ++ pattern ++ "'. Must be 'dev' or 'rc'.")

/-! ### `generate_changelog.py`: conventional-commit classification -/

/-- Python substring containment (`sub in s`). -/
def listContains (haystack needle : List Char) : Bool :=
  needle.isPrefixOf haystack ||
    match haystack with
    | [] => false
    | _ :: rest => listContains rest needle

def containsSub (s sub : String) : Bool :=
  listContains s.data sub.data

def releaseMarker : String := "chore(release):"
def skipCiMarker : String := "[skip ci]"
def breakingMarker : String := "BREAKING CHANGE:"

/-- Capture groups of `_CONVENTIONAL_RE`
`^(?P<type>[a-z]+)(?:\((?P<scope>[^)]*)\))?(?P<bang>!)?:\s*(?P<desc>.+)$`
(the dict built by `_parse_conventional_commit`; absent scope becomes ""). -/
structure ConvCommit where
  type : String
  scope : String
  bang : Bool
  desc : String
deriving DecidableEq, Repr

/-- One attempt at `\s*(.+)$` with `\s*` consuming exactly `k` characters:
`.+` is the maximal newline-free run, `$` matches at the end or before one
final newline. -/
def descTry (r : List Char) (k : Nat) : Option (List Char) :=
  let rest := r.drop k
  let d := rest.takeWhile (· ≠ '\n')
  let tail := rest.dropWhile (· ≠ '\n')
  if d ≠ [] ∧ (tail = [] ∨ tail = ['\n']) then some d else none

/-- Greedy-with-backtracking `\s*`: try the longest whitespace prefix
first, shrinking on failure (regex engine order). -/
def descLoop (r : List Char) : Nat → Option (List Char)
  | 0 => descTry r 0
  | k + 1 =>
    match descTry r (k + 1) with
    | some d => some d
    | none => descLoop r k

/-- Match `\s*(?P<desc>.+)$` against the text after the colon. -/
def matchDesc (r : List Char) : Option (List Char) :=
  descLoop r (r.takeWhile isPyWs).length

/-- `_parse_conventional_commit`: `re.match` of the anchored pattern.
`type` is the maximal leading `[a-z]+` run; the optional scope group is
`(` + `[^)]*` + `)`; then optional `!`; then `:`; then `\s*(.+)$`. -/
def parseConventional (subject : String) : Option ConvCommit :=
  match subject.data.span isLowerAlpha with
  | ([], _) => none
  | (ty, rest0) =>
    let (scope, rest1) : List Char × List Char :=
      match rest0 with
      | '(' :: r =>
        match r.dropWhile (· ≠ ')') with
        | ')' :: r2 => (r.takeWhile (· ≠ ')'), r2)
        | _ => ([], rest0)
      | _ => ([], rest0)
    let (bang, rest2) : Bool × List Char :=
      match rest1 with
      | '!' :: r => (true, r)
      | _ => (false, rest1)
    match rest2 with
    | ':' :: r =>
      match matchDesc r with
      | some desc => some ⟨String.mk ty, String.mk scope, bang, String.mk desc⟩
      | none => none
    | _ => none

inductive Category
  | excluded
  | breaking
  | feature
  | fix
  | other
deriving DecidableEq, Repr

def isExcludedSubject (subject : String) : Bool :=
  containsSub subject releaseMarker || containsSub subject skipCiMarker

/-- The per-commit decision sequence of `_categorize_commits` (lines
179-197): exclusion markers first, then
`is_breaking = (parsed and parsed["bang"]) or "BREAKING CHANGE:" in body`,
then the type mapping with non-conventional subjects falling to `other`. -/
def classifyCommit (subject body : String) : Category :=
  if isExcludedSubject subject then .excluded
  else
    let parsed := parseConventional subject
    let isBreaking :=
      (match parsed with
       | some p => p.bang
       | none => false) || containsSub body breakingMarker
    if isBreaking then .breaking
    else
      match parsed with
      | some p =>
        if p.type = "feat" then .feature
        else if p.type = "fix" then .fix
        else .other
      | none => .other

/-- The four accumulator lists of `_categorize_commits`. -/
structure Categories where
  breaking : List String
  features : List String
  fixes : List String
  other : List String
deriving DecidableEq, Repr

def recordEnd : String := "<<--EOR-->>"

/-- One iteration of the `for record in raw_log.split(record_end)` loop:
strip, skip empties, split on NUL into subject/body/sha, validity checks,
classify, append `- <subject> (\x60<sha>\x60)` to the matching list. -/
def categorizeStep (cats : Categories) (record : String) : Categories :=
  let record := pyStrip record
  if record = "" then cats
  else
    let parts := pySplit record "\x00"
    if parts.length < 3 then cats
    else
      let subject := pyStrip (parts.getD 0 "")
      let body := pyStrip (parts.getD 1 "")
      let sha := pyStrip (parts.getD 2 "")
      if subject = "" || sha = "" then cats
      else
        let line := "- " ++ (subject ++ (" (`" ++ (sha ++ "`)")))
        match classifyCommit subject body with
        | .excluded => cats
        | .breaking => { cats with breaking := cats.breaking ++ [line] }
        | .feature => { cats with features := cats.features ++ [line] }
        | .fix => { cats with fixes := cats.fixes ++ [line] }
        | .other => { cats with other := cats.other ++ [line] }

def categorizeRecords (records : List String) : Categories :=
  records.foldl categorizeStep ⟨[], [], [], []⟩

/-- `_categorize_commits`. -/
def categorizeCommits (rawLog : String) : Categories :=
  categorizeRecords (pySplit rawLog recordEnd)

/-! ### `_render_markdown` -/

/-- The stage-dependent empty-state text chosen in `_render_markdown`'s
if/elif/else (`dev` and `rc` share one text, the else branch is stable). -/
def emptyMessage (stage : String) : String :=
  if stage = "dev" then "No notable changes (internal improvements)\n"
  else if stage = "rc" then "No notable changes (internal improvements)\n"
  else "Patch release (internal improvements)\n"

def changesSinceSection (repo prevTag version : String) : String :=
  "**Changes since**: [" ++ (prevTag ++ ("](https://github.com/" ++ (repo
    ++ ("/compare/" ++ (prevTag ++ ("...v" ++ (version ++ ")\n")))))))

/-- The stage-specific leading sections appended before the category
sections (header, promoted-from, compare link, install block). Python
string truthiness of `source_tag` / `prev_tag and repo` is nonemptiness. -/
def preambleSections (stage version sourceTag repo prevTag releaseDate : String) :
    List String :=
  if stage = "dev" then
    ["**Dev snapshot** `" ++ (version ++ ("` (" ++ (releaseDate ++ ")\n")))]
      ++ (if prevTag ≠ "" ∧ repo ≠ "" then [changesSinceSection repo prevTag version] else [])
  else if stage = "rc" then
    ["**Release candidate** `" ++ (version ++ ("` (" ++ (releaseDate ++ ")\n")))]
      ++ (if sourceTag ≠ "" then ["**Promoted from**: `" ++ (sourceTag ++ "`\n")] else [])
      ++ (if prevTag ≠ "" ∧ repo ≠ "" then [changesSinceSection repo prevTag version] else [])
      ++ ["## Install\n```bash\npipx install nwave-ai=="
            ++ (version ++ " --pip-args=\"--pre\"\n```\n")]
  else
    ["# nWave Framework v" ++ (version ++ "\n"),
     "**Release Date**: " ++ (releaseDate ++ "\n")]
      ++ (if sourceTag ≠ "" then ["**Promoted from**: `" ++ (sourceTag ++ "`\n")] else [])
      ++ (if prevTag ≠ "" ∧ repo ≠ "" then
            ["**Full Changelog**: [" ++ (prevTag ++ ("...v" ++ (version
               ++ ("](https://github.com/" ++ (repo ++ ("/compare/" ++ (prevTag
               ++ ("...v" ++ (version ++ ")\n")))))))))]
          else [])
      ++ ["## Installation\n```bash\npipx install nwave-ai\n```\n"]

/-- The category sections: each nonempty list contributes its header and
the `"\n".join(...) + "\n"` block, in the fixed order; the empty-state
text is appended only when all four are empty (`not any([...])`). -/
def categorySections (cats : Categories) (emptyMsg : String) : List String :=
  (if cats.breaking ≠ [] then
    ["## Breaking Changes\n", pyJoin "\n" cats.breaking ++ "\n"] else [])
  ++ (if cats.features ≠ [] then
    ["## Features\n", pyJoin "\n" cats.features ++ "\n"] else [])
  ++ (if cats.fixes ≠ [] then
    ["## Bug Fixes\n", pyJoin "\n" cats.fixes ++ "\n"] else [])
  ++ (if cats.other ≠ [] then
    ["## Other Changes\n", pyJoin "\n" cats.other ++ "\n"] else [])
  ++ (if cats.breaking = [] ∧ cats.features = [] ∧ cats.fixes = [] ∧ cats.other = []
      then [emptyMsg] else [])

/-- The `sections` list built by `_render_markdown`. -/
def renderSections (stage version sourceTag repo prevTag : String)
    (cats : Categories) (releaseDate : String) : List String :=
  preambleSections stage version sourceTag repo prevTag releaseDate
    ++ categorySections cats (emptyMessage stage)

/-- `_render_markdown`: `"\n".join(sections)`. -/
def renderMarkdown (stage version sourceTag repo prevTag : String)
    (cats : Categories) (releaseDate : String) : String :=
  pyJoin "\n" (renderSections stage version sourceTag repo prevTag cats releaseDate)

/-- Recognizes the four category section headers of `_render_markdown`. -/
def isCatHeader (s : String) : Bool :=
  s = "## Breaking Changes\n" || s = "## Features\n" || s = "## Bug Fixes\n" ||
    s = "## Other Changes\n"

/-- Invariant of the categorizer's accumulator: every collected entry is a
`- <subject> (\x60<sha>\x60)` line, hence starts with `-`. -/
def dashOnly (cats : Categories) : Prop :=
  ∀ e : String,
    (e ∈ cats.breaking ∨ e ∈ cats.features ∨ e ∈ cats.fixes ∨ e ∈ cats.other) →
    e.data.head? = some '-'

/-! ## Supporting lemmas -/

/-- Python `max(..., key=f)` as a left fold keeps a greatest element (and
among equals the earliest): the result is in the list and no element has a
strictly larger key. -/
theorem foldl_maxBy_spec {α β : Type} [LinearOrder β] (f : α → β) :
    ∀ (tl : List α) (hd : α),
      (tl.foldl (fun acc p => if f acc < f p then p else acc) hd) ∈ hd :: tl ∧
      f hd ≤ f (tl.foldl (fun acc p => if f acc < f p then p else acc) hd) ∧
      ∀ x ∈ tl, f x ≤ f (tl.foldl (fun acc p => if f acc < f p then p else acc) hd) := by
  intro tl
  induction tl with
  | nil => exact fun hd => ⟨List.mem_cons_self hd [], le_refl _, by simp⟩
  | cons x tl ih =>
    intro hd
    by_cases hc : f hd < f x
    · obtain ⟨hmem, hle, hall⟩ := ih x
      have hstep :
          (x :: tl).foldl (fun acc p => if f acc < f p then p else acc) hd =
            tl.foldl (fun acc p => if f acc < f p then p else acc) x := by
        show tl.foldl (fun acc p => if f acc < f p then p else acc)
            (if f hd < f x then x else hd) = _
        rw [if_pos hc]
      refine ⟨?_, ?_, ?_⟩
      · rw [hstep]
        rcases List.mem_cons.1 hmem with h | h
        · rw [h]; exact List.mem_cons_of_mem _ (List.mem_cons_self _ _)
        · exact List.mem_cons_of_mem _ (List.mem_cons_of_mem _ h)
      · rw [hstep]; exact le_trans (le_of_lt hc) hle
      · intro y hy
        rw [hstep]
        rcases List.mem_cons.1 hy with h | h
        · rw [h]; exact hle
        · exact hall y h
    · obtain ⟨hmem, hle, hall⟩ := ih hd
      have hstep :
          (x :: tl).foldl (fun acc p => if f acc < f p then p else acc) hd =
            tl.foldl (fun acc p => if f acc < f p then p else acc) hd := by
        show tl.foldl (fun acc p => if f acc < f p then p else acc)
            (if f hd < f x then x else hd) = _
        rw [if_neg hc]
      refine ⟨?_, ?_, ?_⟩
      · rw [hstep]
        rcases List.mem_cons.1 hmem with h | h
        · rw [h]; exact List.mem_cons_self _ _
        · exact List.mem_cons_of_mem _ (List.mem_cons_of_mem _ h)
      · rw [hstep]; exact hle
      · intro y hy
        rw [hstep]
        rcases List.mem_cons.1 hy with h | h
        · rw [h]; exact le_trans (le_of_not_lt hc) hle
        · exact hall y h

/-- What `discover` does on a nonempty filtered candidate list: it emits
success for a maximal candidate, with the tag rebuilt as `"v" ++ str`. -/
theorem discover_spec_aux (tags : List String) (pattern : String) (useGit : Bool)
    (gb : String → Option Nat) (hd : String × PyVersion) (tl : List (String × PyVersion))
    (h : filterByPattern tags pattern = hd :: tl) :
    ∃ p ∈ filterByPattern tags pattern,
      (∀ q ∈ filterByPattern tags pattern, vkey q.2 ≤ vkey p.2) ∧
      discover tags pattern useGit gb =
        .success ("v" ++ p.2.str) p.2.str
          (if useGit then gb ("v" ++ p.2.str) else none) := by
  obtain ⟨hmem, hle, hall⟩ := foldl_maxBy_spec (fun p : String × PyVersion => vkey p.2) tl hd
  refine ⟨maxByVKey hd tl, ?_, ?_, ?_⟩
  · rw [h]; exact hmem
  · intro q hq
    rw [h] at hq
    rcases List.mem_cons.1 hq with h' | h'
    · exact h' ▸ hle
    · exact hall q h'
  · unfold discover
    rw [h]

/-- Parse failure of one tag removes it from every filtered candidate
list. -/
theorem filterByPattern_drop_invalid (xs ys : List String) (j pattern : String)
    (hj : parseTag j = none) :
    filterByPattern (xs ++ j :: ys) pattern = filterByPattern (xs ++ ys) pattern := by
  simp only [filterByPattern, List.filterMap_append, List.filterMap_cons, hj]

/-! ## Claims -/

/-- C1: whenever the filtered candidate set is nonempty, `discover` emits a
candidate maximal under the `_cmpkey` order (component-wise numeric
comparison), never lexical string order: with dev suffixes 1..11 the
maximum is suffix 11 (not 9), and `v1.1.23.dev1` beats `v1.1.22.dev2`. -/
theorem discover_selects_numeric_maximum :
    (∀ (tags : List String) (pattern : String) (gb : String → Option Nat)
        (hd : String × PyVersion) (tl : List (String × PyVersion)),
        filterByPattern tags pattern = hd :: tl →
        ∃ p ∈ filterByPattern tags pattern,
          (∀ q ∈ filterByPattern tags pattern, vkey q.2 ≤ vkey p.2) ∧
          discover tags pattern false gb = .success ("v" ++ p.2.str) p.2.str none) ∧
    discover ["v1.1.23.dev1", "v1.1.23.dev2", "v1.1.23.dev3", "v1.1.23.dev4",
        "v1.1.23.dev5", "v1.1.23.dev6", "v1.1.23.dev7", "v1.1.23.dev8",
        "v1.1.23.dev9", "v1.1.23.dev10", "v1.1.23.dev11"] "dev" false (fun _ => none) =
      .success "v1.1.23.dev11" "1.1.23.dev11" none ∧
    discover ["v1.1.22.dev2", "v1.1.23.dev1"] "dev" false (fun _ => none) =
      .success "v1.1.23.dev1" "1.1.23.dev1" none := by
  refine ⟨?_, by decide, by decide⟩
  intro tags pattern gb hd tl h
  obtain ⟨p, hp, hmax, hout⟩ := discover_spec_aux tags pattern false gb hd tl h
  exact ⟨p, hp, hmax, by simpa using hout⟩

/-- C1 witness: the general part applied to a concrete singleton list. -/
theorem discover_selects_numeric_maximum_witness :
    ∃ p ∈ filterByPattern ["v0.1.0.dev1"] "dev",
      (∀ q ∈ filterByPattern ["v0.1.0.dev1"] "dev", vkey q.2 ≤ vkey p.2) ∧
      discover ["v0.1.0.dev1"] "dev" false (fun _ => none) =
        .success ("v" ++ p.2.str) p.2.str none :=
  discover_selects_numeric_maximum.1 ["v0.1.0.dev1"] "dev" (fun _ => none)
    ("v0.1.0.dev1", ⟨0, [0, 1, 0], none, none, some 1, none⟩) [] (by decide)

/-- C2 counterexample: the reported tag is rebuilt as `f"v{version}"`, not
returned from the supplied collection; a collection whose sole member
lacks the `v` prefix yields a tag that is not in the collection. -/
theorem discover_tag_not_from_collection :
    discover ["1.2.3.dev1"] "dev" false (fun _ => none) =
      .success "v1.2.3.dev1" "1.2.3.dev1" none ∧
    "v1.2.3.dev1" ∉ ["1.2.3.dev1"] := by
  exact ⟨by decide, by decide⟩

/-- C2 amended: the reported tag is `"v"` ++ the normalized string of the
maximal parsed version (so it equals a supplied tag exactly when that tag
was supplied in normalized `v`-prefixed form, as in `v1.1.23.dev1`). -/
theorem discover_reports_normalized_maximum :
    (∀ (tags : List String) (pattern : String) (useGit : Bool)
        (gb : String → Option Nat) (hd : String × PyVersion)
        (tl : List (String × PyVersion)),
        filterByPattern tags pattern = hd :: tl →
        ∃ p ∈ filterByPattern tags pattern,
          (∀ q ∈ filterByPattern tags pattern, vkey q.2 ≤ vkey p.2) ∧
          discover tags pattern useGit gb =
            .success ("v" ++ p.2.str) p.2.str
              (if useGit then gb ("v" ++ p.2.str) else none)) ∧
    (∀ (tags : List String) (pattern : String) (useGit : Bool)
        (gb : String → Option Nat) (t v : String) (cb : Option Nat),
        discover tags pattern useGit gb = .success t v cb → t = "v" ++ v) ∧
    discover ["v1.1.23.dev1"] "dev" false (fun _ => none) =
      .success "v1.1.23.dev1" "1.1.23.dev1" none := by
  refine ⟨discover_spec_aux, ?_, by decide⟩
  intro tags pattern useGit gb t v cb h
  unfold discover at h
  rcases hf : filterByPattern tags pattern with _ | ⟨hd, tl⟩ <;> rw [hf] at h
  · simp at h
  · simp only [Output.success.injEq] at h
    rw [← h.1, ← h.2.1]

/-- C2 witness for the amended claim. -/
theorem discover_reports_normalized_maximum_witness :
    ∃ p ∈ filterByPattern ["v0.1.0.dev1"] "dev",
      (∀ q ∈ filterByPattern ["v0.1.0.dev1"] "dev", vkey q.2 ≤ vkey p.2) ∧
      discover ["v0.1.0.dev1"] "dev" false (fun _ => none) =
        .success ("v" ++ p.2.str) p.2.str (if false then (fun _ => none) ("v" ++ p.2.str) else none) :=
  discover_reports_normalized_maximum.1 ["v0.1.0.dev1"] "dev" false (fun _ => none)
    ("v0.1.0.dev1", ⟨0, [0, 1, 0], none, none, some 1, none⟩) [] (by decide)

/-- C5 counterexample: `_parse_tag` strips every leading `v` (Python
`lstrip("v")`), not exactly one: `"vvv1.2.3.dev1"` parses successfully even
though the string obtained by stripping exactly one `v` does not conform
to the version grammar. -/
theorem parse_tag_strips_all_leading_v :
    parseTag "vvv1.2.3.dev1" = some ⟨0, [1, 2, 3], none, none, some 1, none⟩ ∧
    pyVersionParse "vv1.2.3.dev1" = none := by
  exact ⟨by decide, by decide⟩

/-- C5 amended: `_parse_tag` strips all leading `v` characters and yields
`None` for non-conforming strings (such as `"not-a-version"` and
`"garbage"`); `discover` is unchanged by removing any tag that fails to
parse. -/
theorem discover_tolerates_invalid_tags :
    parseTag "not-a-version" = none ∧
    parseTag "garbage" = none ∧
    (∀ (xs ys : List String) (j pattern : String) (useGit : Bool)
        (gb : String → Option Nat),
        parseTag j = none →
        discover (xs ++ j :: ys) pattern useGit gb =
          discover (xs ++ ys) pattern useGit gb) := by
  refine ⟨by decide, by decide, ?_⟩
  intro xs ys j pattern useGit gb hj
  unfold discover
  rw [filterByPattern_drop_invalid xs ys j pattern hj]

/-- C5 witness: dropping `"garbage"` from a concrete list leaves the
result unchanged. -/
theorem discover_tolerates_invalid_tags_witness :
    discover (["v1.1.22.dev1"] ++ "garbage" :: ["v1.1.23.dev1"]) "dev" false (fun _ => none) =
      discover (["v1.1.22.dev1"] ++ ["v1.1.23.dev1"]) "dev" false (fun _ => none) :=
  discover_tolerates_invalid_tags.2.2 ["v1.1.22.dev1"] ["v1.1.23.dev1"] "garbage" "dev"
    false (fun _ => none) (by decide)

/-- C10: the dev and rc predicates are not mutually exclusive:
`v1.0.0rc1.dev1` carries both an `rc` pre-release segment and a dev
segment, so it is a candidate for both stages. -/
theorem dev_and_rc_predicates_overlap :
    parseTag "v1.0.0rc1.dev1" =
      some ⟨0, [1, 0, 0], some (.rc, 1), none, some 1, none⟩ ∧
    isDevTag ⟨0, [1, 0, 0], some (.rc, 1), none, some 1, none⟩ = true ∧
    isRcTag ⟨0, [1, 0, 0], some (.rc, 1), none, some 1, none⟩ = true ∧
    filterByPattern ["v1.0.0rc1.dev1"] "dev" =
      [("v1.0.0rc1.dev1", ⟨0, [1, 0, 0], some (.rc, 1), none, some 1, none⟩)] ∧
    filterByPattern ["v1.0.0rc1.dev1"] "rc" =
      [("v1.0.0rc1.dev1", ⟨0, [1, 0, 0], some (.rc, 1), none, some 1, none⟩)] := by
  refine ⟨by decide, by decide, by decide, by decide, by decide⟩

/-- C6: `validate` succeeds exactly when the target is verbatim in the
collection and parses; on success it returns the target itself (with its
parsed version's normalized string), and the outcome depends on the rest
of the collection only through the membership of the target. -/
theorem validate_membership_and_independence :
    ∀ (tags : List String) (target : String),
      ((∃ v c, validate tags target = .success target v c) ↔
        target ∈ tags ∧ parseTag target ≠ none) ∧
      (∀ t v c, validate tags target = .success t v c →
        t = target ∧ (∃ pv, parseTag target = some pv ∧ v = pv.str) ∧ c = none) ∧
      (¬(target ∈ tags ∧ parseTag target ≠ none) →
        validate tags target =
          .notFound ("Tag '" ++ target ++ "' not found in tag list.")) ∧
      (∀ tags' : List String, (target ∈ tags ↔ target ∈ tags') →
        validate tags target = validate tags' target) := by
  have hval : ∀ (tags : List String) (target : String),
      validate tags target =
        if target ∈ tags ∧ parseTag target ≠ none then
          .success target ((parseTag target).getD default).str none
        else .notFound ("Tag '" ++ target ++ "' not found in tag list.") := by
    intro tags target
    unfold validate
    by_cases hm : target ∈ tags
    · rcases hp : parseTag target with _ | pv
      · simp [hm, hp]
      · simp [hm, hp]
    · simp [hm]
  intro tags target
  refine ⟨?_, ?_, ?_, ?_⟩
  · rw [hval]
    constructor
    · rintro ⟨v, c, hv⟩
      by_cases hc : target ∈ tags ∧ parseTag target ≠ none
      · exact hc
      · rw [if_neg hc] at hv
        exact absurd hv (by simp)
    · intro hc
      rw [if_pos hc]
      exact ⟨_, _, rfl⟩
  · intro t v c
    rw [hval]
    by_cases hc : target ∈ tags ∧ parseTag target ≠ none
    · rw [if_pos hc]
      intro hv
      simp only [Output.success.injEq] at hv
      rcases hp : parseTag target with _ | pv
      · exact absurd hp hc.2
      · refine ⟨hv.1.symm, ⟨pv, rfl, ?_⟩, hv.2.2.symm⟩
        rw [← hv.2.1, hp]
        rfl
    · rw [if_neg hc]
      intro hv
      exact absurd hv (by simp)
  · intro hc
    rw [hval, if_neg hc]
  · intro tags' hmm
    have hiff : (target ∈ tags ∧ parseTag target ≠ none) ↔
        (target ∈ tags' ∧ parseTag target ≠ none) :=
      and_congr_left fun _ => hmm
    rw [hval, hval]
    by_cases hc : target ∈ tags' ∧ parseTag target ≠ none
    · rw [if_pos (hiff.2 hc), if_pos hc]
    · rw [if_neg (fun h => hc (hiff.1 h)), if_neg hc]

/-- C6 witness: validating a tag present in a two-element collection gives
the same result as in a singleton, and that result returns the target. -/
theorem validate_membership_and_independence_witness :
    validate ["v1.1.22.dev2", "v1.1.23.dev1"] "v1.1.22.dev2" =
      validate ["v1.1.22.dev2"] "v1.1.22.dev2" ∧
    validate ["v1.1.22.dev2"] "v1.1.22.dev2" =
      .success "v1.1.22.dev2" "1.1.22.dev2" none :=
  ⟨(validate_membership_and_independence ["v1.1.22.dev2", "v1.1.23.dev1"]
      "v1.1.22.dev2").2.2.2 ["v1.1.22.dev2"] (by decide), by decide⟩

/-- C7: an empty filtered candidate set yields not-found (exit 1) with
stage guidance that differs between dev and rc; a stage outside
{dev, rc} yields the distinct invalid-input error (exit 2), never a
default stage. -/
theorem empty_guidance_and_invalid_stage_distinct :
    (∀ (tags : List String) (pattern : String) (useGit : Bool)
        (gb : String → Option Nat),
        filterByPattern tags pattern = [] →
        discover tags pattern useGit gb = .notFound (stageGuidance pattern) ∧
        exitCode (discover tags pattern useGit gb) = 1) ∧
    stageGuidance "dev" ≠ stageGuidance "rc" ∧
    (∀ (pattern : String) (va ta : Option String) (gitTags : List String)
        (gb : String → Option Nat),
        pattern ≠ "dev" → pattern ≠ "rc" →
        mainModel pattern va ta gitTags gb =
          .invalidInput ("Invalid pattern '" ++ pattern ++ "'. Must be 'dev' or 'rc'.") ∧
        exitCode (mainModel pattern va ta gitTags gb) = 2) := by
  refine ⟨?_, by decide, ?_⟩
  · intro tags pattern useGit gb h
    have hd : discover tags pattern useGit gb = .notFound (stageGuidance pattern) := by
      unfold discover
      rw [h]
    exact ⟨hd, by rw [hd]; rfl⟩
  · intro pattern va ta gitTags gb h1 h2
    have hm : mainModel pattern va ta gitTags gb =
        .invalidInput ("Invalid pattern '" ++ pattern ++ "'. Must be 'dev' or 'rc'.") := by
      unfold mainModel
      rw [if_neg (by simp [h1, h2])]
    exact ⟨hm, by rw [hm]; rfl⟩

/-- C7 witness: both parts at concrete inputs (empty dev set; stage
`stable`). -/
theorem empty_guidance_and_invalid_stage_distinct_witness :
    (discover [] "dev" false (fun _ => none) =
      .notFound (stageGuidance "dev") ∧
      exitCode (discover [] "dev" false (fun _ => none)) = 1) ∧
    (mainModel "stable" none (some "v1.0.0") [] (fun _ => none) =
      .invalidInput "Invalid pattern 'stable'. Must be 'dev' or 'rc'." ∧
      exitCode (mainModel "stable" none (some "v1.0.0") [] (fun _ => none)) = 2) :=
  ⟨empty_guidance_and_invalid_stage_distinct.1 [] "dev" false (fun _ => none) (by decide),
   empty_guidance_and_invalid_stage_distinct.2.2 "stable" none (some "v1.0.0") []
     (fun _ => none) (by decide) (by decide)⟩

/-- C9: with an explicit tag list, every successful result carries
`commits_behind = None`, and the git oracles (tag listing and staleness
counting) are never consulted: the two code paths are mutually exclusive
in one invocation. -/
theorem explicit_tag_list_staleness_unavailable :
    ∀ (pattern : String) (va : Option String) (s : String)
      (gitTags gitTags' : List String) (gb gb' : String → Option Nat),
      (∀ t v cb, mainModel pattern va (some s) gitTags gb = .success t v cb →
        cb = none) ∧
      mainModel pattern va (some s) gitTags gb =
        mainModel pattern va (some s) gitTags' gb' := by
  have hdisc : ∀ (tags : List String) (pattern : String)
      (gb gb' : String → Option Nat),
      discover tags pattern false gb = discover tags pattern false gb' ∧
      ∀ t v cb, discover tags pattern false gb = .success t v cb → cb = none := by
    intro tags pattern gb gb'
    unfold discover
    rcases hf : filterByPattern tags pattern with _ | ⟨hd, tl⟩
    · exact ⟨rfl, by simp⟩
    · refine ⟨rfl, ?_⟩
      intro t v cb h
      simp only [Output.success.injEq] at h
      rw [← h.2.2]
      simp
  have hvalcb : ∀ (tags : List String) (target t v : String) (cb : Option Nat),
      validate tags target = .success t v cb → cb = none := by
    intro tags target t v cb h
    unfold validate at h
    by_cases hm : target ∈ tags
    · rw [if_pos hm] at h
      rcases hp : parseTag target with _ | pv <;> rw [hp] at h
      · exact absurd h (by simp)
      · simp only [Output.success.injEq] at h
        exact h.2.2.symm
    · rw [if_neg hm] at h
      exact absurd h (by simp)
  intro pattern va s gitTags gitTags' gb gb'
  by_cases hp : pattern = "dev" ∨ pattern = "rc"
  · constructor
    · intro t v cb h
      unfold mainModel at h
      rw [if_pos hp] at h
      rcases va with _ | target
      · exact (hdisc (splitTagList s) pattern gb gb').2 t v cb h
      · exact hvalcb (splitTagList s) target t v cb h
    · unfold mainModel
      rw [if_pos hp, if_pos hp]
      rcases va with _ | target
      · exact (hdisc (splitTagList s) pattern gb gb').1
      · rfl
  · constructor
    · intro t v cb h
      unfold mainModel at h
      rw [if_neg hp] at h
      exact absurd h (by simp)
    · unfold mainModel
      rw [if_neg hp, if_neg hp]

/-- C9 witness: a concrete explicit-list invocation succeeds with
`commits_behind = None` even though the staleness oracle would answer. -/
theorem explicit_tag_list_staleness_unavailable_witness :
    mainModel "dev" none (some "v1.1.23.dev1") ["v9.9.9.dev1"] (fun _ => some 5) =
      mainModel "dev" none (some "v1.1.23.dev1") [] (fun _ => none) ∧
    (mainModel "dev" none (some "v1.1.23.dev1") ["v9.9.9.dev1"] (fun _ => some 5) =
      .success "v1.1.23.dev1" "1.1.23.dev1" none → (none : Option Nat) = none) :=
  ⟨(explicit_tag_list_staleness_unavailable "dev" none "v1.1.23.dev1"
      ["v9.9.9.dev1"] [] (fun _ => some 5) (fun _ => none)).2,
   fun h => (explicit_tag_list_staleness_unavailable "dev" none "v1.1.23.dev1"
      ["v9.9.9.dev1"] [] (fun _ => some 5) (fun _ => none)).1
      "v1.1.23.dev1" "1.1.23.dev1" none h⟩

/-- C3 counterexample: a subject that does not match the conventional
grammar but whose body contains `BREAKING CHANGE:` classifies as
`breaking`, not `other` — the code's breaking test is
`(parsed and parsed["bang"]) or "BREAKING CHANGE:" in body`, so the
body marker fires without a grammar match. -/
theorem breaking_without_grammar_match :
    parseConventional "update readme" = none ∧
    isExcludedSubject "update readme" = false ∧
    classifyCommit "update readme" "BREAKING CHANGE: renamed api" = .breaking := by
  exact ⟨by decide, by decide, by decide⟩

/-- C3 amended: for non-excluded commits, classification is breaking iff
(the subject matches the grammar AND carries `!`) OR the body contains
`BREAKING CHANGE:`; `feat!: x` is breaking, and a non-matching subject
with no body marker falls through to `other`. -/
theorem classify_breaking_rule :
    (∀ subject body : String,
        isExcludedSubject subject = false →
        (classifyCommit subject body = .breaking ↔
          ((∃ p, parseConventional subject = some p ∧ p.bang = true) ∨
            containsSub body breakingMarker = true))) ∧
    classifyCommit "feat!: x" "" = .breaking ∧
    (∀ subject body : String,
        isExcludedSubject subject = false →
        parseConventional subject = none →
        containsSub body breakingMarker = false →
        classifyCommit subject body = .other) := by
  refine ⟨?_, by decide, ?_⟩
  · intro subject body hex
    unfold classifyCommit
    rw [hex]
    simp only [Bool.false_eq_true, if_false]
    rcases hp : parseConventional subject with _ | p
    · rcases hb : containsSub body breakingMarker with _ | _
      · simp [hb]
      · simp [hb]
    · rcases hbang : p.bang with _ | _
      · rcases hb : containsSub body breakingMarker with _ | _
        · by_cases hft : p.type = "feat"
          · simp [hbang, hb, hft]
          · by_cases hfx : p.type = "fix" <;> simp [hbang, hb, hft, hfx]
        · simp [hbang, hb]
      · simp [hbang]
  · intro subject body hex hp hb
    unfold classifyCommit
    rw [hex]
    simp [hp, hb]

/-- C3 amended-claim witness. -/
theorem classify_breaking_rule_witness :
    (classifyCommit "feat!: y" "no marker" = .breaking ↔
      ((∃ p, parseConventional "feat!: y" = some p ∧ p.bang = true) ∨
        containsSub "no marker" breakingMarker = true)) ∧
    classifyCommit "plain subject" "plain body" = .other :=
  ⟨(classify_breaking_rule.1 "feat!: y" "no marker") (by decide),
   classify_breaking_rule.2.2 "plain subject" "plain body" (by decide) (by decide)
     (by decide)⟩

/-- C4: a commit record whose (stripped) subject field contains the
release-automation marker `chore(release):` or the CI-skip marker
`[skip ci]` is classified excluded regardless of its body (even a
breaking one), its record leaves the accumulator untouched, and removing
it from the record stream does not change any of the four category
lists. -/
theorem excluded_subject_is_inert :
    ∀ record : String,
      isExcludedSubject (pyStrip ((pySplit (pyStrip record) "\x00").getD 0 "")) = true →
      (∀ body : String,
        classifyCommit (pyStrip ((pySplit (pyStrip record) "\x00").getD 0 "")) body =
          .excluded) ∧
      (∀ cats : Categories, categorizeStep cats record = cats) ∧
      (∀ xs ys : List String,
        categorizeRecords (xs ++ record :: ys) = categorizeRecords (xs ++ ys)) := by
  intro record hex
  have hcls : ∀ body, classifyCommit
      (pyStrip ((pySplit (pyStrip record) "\x00").getD 0 "")) body = .excluded := by
    intro body
    unfold classifyCommit
    rw [hex]
    simp
  have hstep : ∀ cats : Categories, categorizeStep cats record = cats := by
    intro cats
    simp only [categorizeStep]
    split
    · rfl
    · split
      · rfl
      · split
        · rfl
        · rw [hcls]
  refine ⟨hcls, hstep, ?_⟩
  intro xs ys
  unfold categorizeRecords
  rw [List.foldl_append, List.foldl_append, List.foldl_cons, hstep]

/-- C4 witness: the release-automation record from the test suite, with a
breaking body, leaves the categorizer unchanged. -/
theorem excluded_subject_is_inert_witness :
    classifyCommit
      (pyStrip (List.getD
        (pySplit (pyStrip "chore(release): v1.0.0 [skip ci]\x00BREAKING CHANGE: x\x00d4") "\x00")
        0 "")) "BREAKING CHANGE: x" = .excluded ∧
    categorizeStep ⟨[], [], [], []⟩
      "chore(release): v1.0.0 [skip ci]\x00BREAKING CHANGE: x\x00d4" =
      ⟨[], [], [], []⟩ :=
  ⟨(excluded_subject_is_inert
      "chore(release): v1.0.0 [skip ci]\x00BREAKING CHANGE: x\x00d4" (by decide)).1
      "BREAKING CHANGE: x",
   (excluded_subject_is_inert
      "chore(release): v1.0.0 [skip ci]\x00BREAKING CHANGE: x\x00d4" (by decide)).2.1
      ⟨[], [], [], []⟩⟩

/-! ## Rendering lemmas for the section-order claim -/

theorem append_head (a b : String) (c : Char) (h : a.data.head? = some c) :
    (a ++ b).data.head? = some c := by
  rw [String.data_append]
  rcases ha : a.data with _ | ⟨x, xs⟩
  · rw [ha] at h
    exact Option.noConfusion h
  · rw [ha] at h
    simpa using h

theorem ne_of_head {s t : String} {c d : Char} (hs : s.data.head? = some c)
    (ht : t.data.head? = some d) (hne : c ≠ d) : s ≠ t := by
  intro he
  rw [he, ht] at hs
  exact hne (Option.some.inj hs).symm

theorem take4_append (a b : String) (h : 4 ≤ a.data.length) :
    (a ++ b).data.take 4 = a.data.take 4 := by
  rw [String.data_append, List.take_append_of_le_length h]

theorem ne_of_take4 {s t : String} {p q : List Char} (hs : s.data.take 4 = p)
    (ht : t.data.take 4 = q) (hne : p ≠ q) : s ≠ t := by
  intro he
  rw [he, ht] at hs
  exact hne hs.symm

/-- A string whose 4-character data prefix differs from those of the four
headers and the two empty-state texts is none of them. -/
theorem safe_of_take4 {s : String} {p : List Char} (hp : s.data.take 4 = p)
    (h1 : p ≠ ("## B" : String).data) (h2 : p ≠ ("## F" : String).data)
    (h3 : p ≠ ("## O" : String).data) (h4 : p ≠ ("No n" : String).data)
    (h5 : p ≠ ("Patc" : String).data) :
    isCatHeader s = false ∧ s ≠ "No notable changes (internal improvements)\n" ∧
      s ≠ "Patch release (internal improvements)\n" := by
  have n1 : s ≠ "## Breaking Changes\n" := ne_of_take4 hp (by decide) h1
  have n2 : s ≠ "## Features\n" := ne_of_take4 hp (by decide) h2
  have n3 : s ≠ "## Bug Fixes\n" := ne_of_take4 hp (by decide) h1
  have n4 : s ≠ "## Other Changes\n" := ne_of_take4 hp (by decide) h3
  refine ⟨?_, ne_of_take4 hp (by decide) h4, ne_of_take4 hp (by decide) h5⟩
  simp [isCatHeader, n1, n2, n3, n4]

/-- Same, by the first character alone. -/
theorem safe_of_head {s : String} {c : Char} (h : s.data.head? = some c)
    (h1 : c ≠ '#') (h2 : c ≠ 'N') (h3 : c ≠ 'P') :
    isCatHeader s = false ∧ s ≠ "No notable changes (internal improvements)\n" ∧
      s ≠ "Patch release (internal improvements)\n" := by
  have n1 : s ≠ "## Breaking Changes\n" := ne_of_head h (by decide) h1
  have n2 : s ≠ "## Features\n" := ne_of_head h (by decide) h1
  have n3 : s ≠ "## Bug Fixes\n" := ne_of_head h (by decide) h1
  have n4 : s ≠ "## Other Changes\n" := ne_of_head h (by decide) h1
  refine ⟨?_, ne_of_head h (by decide) h2, ne_of_head h (by decide) h3⟩
  simp [isCatHeader, n1, n2, n3, n4]

/-- A joined category block starts with its first entry's first char. -/
theorem pyJoin_block_head (x : String) (xs : List String) (c : Char)
    (h : x.data.head? = some c) :
    (pyJoin "\n" (x :: xs) ++ "\n").data.head? = some c := by
  cases xs with
  | nil => exact append_head x "\n" c h
  | cons y ys => exact append_head _ _ c (append_head _ _ c (append_head x "\n" c h))

/-- No preamble section is a category header or an empty-state text,
whatever the interpolated strings are. -/
theorem preambleSections_safe (stage version sourceTag repo prevTag releaseDate : String) :
    ∀ s ∈ preambleSections stage version sourceTag repo prevTag releaseDate,
      isCatHeader s = false ∧ s ≠ "No notable changes (internal improvements)\n" ∧
        s ≠ "Patch release (internal improvements)\n" := by
  intro s hs
  unfold preambleSections at hs
  by_cases hd : stage = "dev"
  · rw [if_pos hd] at hs
    by_cases hpr : prevTag ≠ "" ∧ repo ≠ "" <;> simp [hpr] at hs <;>
      rcases hs with rfl | rfl <;>
      exact safe_of_take4 (take4_append _ _ (by decide)) (by decide) (by decide)
        (by decide) (by decide) (by decide)
  · rw [if_neg hd] at hs
    by_cases hr : stage = "rc"
    · rw [if_pos hr] at hs
      by_cases hst : sourceTag ≠ "" <;> by_cases hpr : prevTag ≠ "" ∧ repo ≠ "" <;>
        simp [hst, hpr] at hs <;>
        rcases hs with rfl | rfl | rfl | rfl <;>
        exact safe_of_take4 (take4_append _ _ (by decide)) (by decide) (by decide)
          (by decide) (by decide) (by decide)
    · rw [if_neg hr] at hs
      by_cases hst : sourceTag ≠ "" <;> by_cases hpr : prevTag ≠ "" ∧ repo ≠ "" <;>
        simp [hst, hpr] at hs <;>
        rcases hs with rfl | rfl | rfl | rfl | rfl <;>
        first
          | exact safe_of_take4 (take4_append _ _ (by decide)) (by decide) (by decide)
              (by decide) (by decide) (by decide)
          | exact safe_of_take4 rfl (by decide) (by decide) (by decide) (by decide)
              (by decide)

theorem not_catHeader_of_head {s : String} {c : Char} (h : s.data.head? = some c)
    (h1 : c ≠ '#') : isCatHeader s = false := by
  have n1 : s ≠ "## Breaking Changes\n" := ne_of_head h (by decide) h1
  have n2 : s ≠ "## Features\n" := ne_of_head h (by decide) h1
  have n3 : s ≠ "## Bug Fixes\n" := ne_of_head h (by decide) h1
  have n4 : s ≠ "## Other Changes\n" := ne_of_head h (by decide) h1
  simp [isCatHeader, n1, n2, n3, n4]

/-- Filtering one category chunk keeps exactly its header. -/
theorem filter_chunk (l : List String) (h : String) (hh : isCatHeader h = true)
    (hl : ∀ e ∈ l, e.data.head? = some '-') :
    List.filter isCatHeader (if l ≠ [] then [h, pyJoin "\n" l ++ "\n"] else []) =
      (if l ≠ [] then [h] else []) := by
  rcases l with _ | ⟨x, xs⟩
  · simp
  · have hb : isCatHeader (pyJoin "\n" (x :: xs) ++ "\n") = false :=
      not_catHeader_of_head (pyJoin_block_head x xs '-' (hl x (List.mem_cons_self x xs)))
        (by decide)
    simp [List.filter, hh, hb]

/-- A string that is neither a header nor dash-initial is not in a
category chunk. -/
theorem chunk_not_mem {s : String} (l : List String) (h : String)
    (hs : isCatHeader s = false) (hh : isCatHeader h = true)
    (hd : s.data.head? ≠ some '-')
    (hl : ∀ e ∈ l, e.data.head? = some '-') :
    s ∉ (if l ≠ [] then [h, pyJoin "\n" l ++ "\n"] else []) := by
  rcases l with _ | ⟨x, xs⟩
  · simp
  · intro hm
    simp only [ne_eq, reduceCtorEq, not_false_eq_true, if_true, List.mem_cons,
      List.mem_singleton, List.not_mem_nil, or_false] at hm
    rcases hm with rfl | rfl
    · rw [hh] at hs
      exact Bool.noConfusion hs
    · exact hd (pyJoin_block_head x xs '-' (hl x (List.mem_cons_self x xs)))

theorem emptyMessage_head (stage : String) :
    (emptyMessage stage).data.head? = some 'N' ∨
      (emptyMessage stage).data.head? = some 'P' := by
  unfold emptyMessage
  by_cases h1 : stage = "dev"
  · rw [if_pos h1]; left; rfl
  · rw [if_neg h1]
    by_cases h2 : stage = "rc"
    · rw [if_pos h2]; left; rfl
    · rw [if_neg h2]; right; rfl

theorem emptyMessage_cases (stage : String) :
    emptyMessage stage = "No notable changes (internal improvements)\n" ∨
      emptyMessage stage = "Patch release (internal improvements)\n" := by
  unfold emptyMessage
  by_cases h1 : stage = "dev"
  · rw [if_pos h1]; left; rfl
  · rw [if_neg h1]
    by_cases h2 : stage = "rc"
    · rw [if_pos h2]; left; rfl
    · rw [if_neg h2]; right; rfl

/-- The filtered category sections list keeps exactly the fixed-order
headers of the nonempty categories. -/
theorem categorySections_filter (cats : Categories) (msg : String)
    (hmsg : isCatHeader msg = false) (hdash : dashOnly cats) :
    List.filter isCatHeader (categorySections cats msg) =
      (if cats.breaking ≠ [] then ["## Breaking Changes\n"] else [])
      ++ (if cats.features ≠ [] then ["## Features\n"] else [])
      ++ (if cats.fixes ≠ [] then ["## Bug Fixes\n"] else [])
      ++ (if cats.other ≠ [] then ["## Other Changes\n"] else []) := by
  unfold categorySections
  rw [List.filter_append, List.filter_append, List.filter_append, List.filter_append]
  rw [filter_chunk _ _ (by decide) (fun e he => hdash e (Or.inl he)),
    filter_chunk _ _ (by decide) (fun e he => hdash e (Or.inr (Or.inl he))),
    filter_chunk _ _ (by decide) (fun e he => hdash e (Or.inr (Or.inr (Or.inl he)))),
    filter_chunk _ _ (by decide) (fun e he => hdash e (Or.inr (Or.inr (Or.inr he))))]
  have hlast : List.filter isCatHeader
      (if cats.breaking = [] ∧ cats.features = [] ∧ cats.fixes = [] ∧ cats.other = []
       then [msg] else []) = [] := by
    split
    · simp [List.filter, hmsg]
    · rfl
  rw [hlast, List.append_nil]

/-- The empty-state text appears among the category sections iff all four
categories are empty. -/
theorem categorySections_mem_msg (cats : Categories) (msg : String)
    (hmsg : isCatHeader msg = false) (hd : msg.data.head? ≠ some '-')
    (hdash : dashOnly cats) :
    msg ∈ categorySections cats msg ↔
      (cats.breaking = [] ∧ cats.features = [] ∧ cats.fixes = [] ∧ cats.other = []) := by
  unfold categorySections
  constructor
  · intro hm
    by_cases hall : cats.breaking = [] ∧ cats.features = [] ∧ cats.fixes = [] ∧
        cats.other = []
    · exact hall
    · exfalso
      simp only [List.mem_append] at hm
      rcases hm with ((((h | h) | h) | h) | h)
      · exact chunk_not_mem _ _ hmsg (by decide) hd
          (fun e he => hdash e (Or.inl he)) h
      · exact chunk_not_mem _ _ hmsg (by decide) hd
          (fun e he => hdash e (Or.inr (Or.inl he))) h
      · exact chunk_not_mem _ _ hmsg (by decide) hd
          (fun e he => hdash e (Or.inr (Or.inr (Or.inl he)))) h
      · exact chunk_not_mem _ _ hmsg (by decide) hd
          (fun e he => hdash e (Or.inr (Or.inr (Or.inr he)))) h
      · rw [if_neg hall] at h
        exact List.not_mem_nil msg h
  · intro hall
    simp [hall.1, hall.2.1, hall.2.2.1, hall.2.2.2]

/-- Every line the categorizer appends starts with `-`. -/
theorem categorizeStep_dashOnly (cats : Categories) (r : String)
    (h : dashOnly cats) : dashOnly (categorizeStep cats r) := by
  simp only [categorizeStep]
  split
  · exact h
  · split
    · exact h
    · split
      · exact h
      · split
        · exact h
        · intro e he
          rcases he with he | he | he | he
          · rcases List.mem_append.1 he with he | he
            · exact h e (Or.inl he)
            · rw [List.mem_singleton.1 he]
              exact append_head _ _ '-' (by decide)
          · exact h e (Or.inr (Or.inl he))
          · exact h e (Or.inr (Or.inr (Or.inl he)))
          · exact h e (Or.inr (Or.inr (Or.inr he)))
        · intro e he
          rcases he with he | he | he | he
          · exact h e (Or.inl he)
          · rcases List.mem_append.1 he with he | he
            · exact h e (Or.inr (Or.inl he))
            · rw [List.mem_singleton.1 he]
              exact append_head _ _ '-' (by decide)
          · exact h e (Or.inr (Or.inr (Or.inl he)))
          · exact h e (Or.inr (Or.inr (Or.inr he)))
        · intro e he
          rcases he with he | he | he | he
          · exact h e (Or.inl he)
          · exact h e (Or.inr (Or.inl he))
          · rcases List.mem_append.1 he with he | he
            · exact h e (Or.inr (Or.inr (Or.inl he)))
            · rw [List.mem_singleton.1 he]
              exact append_head _ _ '-' (by decide)
          · exact h e (Or.inr (Or.inr (Or.inr he)))
        · intro e he
          rcases he with he | he | he | he
          · exact h e (Or.inl he)
          · exact h e (Or.inr (Or.inl he))
          · exact h e (Or.inr (Or.inr (Or.inl he)))
          · rcases List.mem_append.1 he with he | he
            · exact h e (Or.inr (Or.inr (Or.inr he)))
            · rw [List.mem_singleton.1 he]
              exact append_head _ _ '-' (by decide)

theorem categorizeRecords_dashOnly_aux :
    ∀ (records : List String) (cats : Categories), dashOnly cats →
      dashOnly (records.foldl categorizeStep cats) := by
  intro records
  induction records with
  | nil => exact fun cats h => h
  | cons r rs ih => exact fun cats h => ih _ (categorizeStep_dashOnly cats r h)

theorem categorizeCommits_dashOnly (rawLog : String) :
    dashOnly (categorizeCommits rawLog) :=
  categorizeRecords_dashOnly_aux _ _ (fun e he => by
    rcases he with h | h | h | h <;> exact absurd h (List.not_mem_nil e))

/-- C8: over any raw commit log and any stage string, the rendered
sections list contains exactly the headers of the nonempty categories, in
the fixed order Breaking Changes, Features, Bug Fixes, Other Changes (a
category with no entries contributes no section), and the stage-specific
empty-state text appears iff all four category lists are empty. -/
theorem render_fixed_section_order :
    ∀ (stage version sourceTag repo prevTag releaseDate rawLog : String),
      (List.filter isCatHeader
          (renderSections stage version sourceTag repo prevTag
            (categorizeCommits rawLog) releaseDate) =
        (if (categorizeCommits rawLog).breaking ≠ [] then ["## Breaking Changes\n"] else [])
        ++ (if (categorizeCommits rawLog).features ≠ [] then ["## Features\n"] else [])
        ++ (if (categorizeCommits rawLog).fixes ≠ [] then ["## Bug Fixes\n"] else [])
        ++ (if (categorizeCommits rawLog).other ≠ [] then ["## Other Changes\n"] else [])) ∧
      (emptyMessage stage ∈
          renderSections stage version sourceTag repo prevTag
            (categorizeCommits rawLog) releaseDate ↔
        ((categorizeCommits rawLog).breaking = [] ∧
         (categorizeCommits rawLog).features = [] ∧
         (categorizeCommits rawLog).fixes = [] ∧
         (categorizeCommits rawLog).other = [])) := by
  intro stage version sourceTag repo prevTag releaseDate rawLog
  have hdash := categorizeCommits_dashOnly rawLog
  have hmsgNotHeader : isCatHeader (emptyMessage stage) = false := by
    rcases emptyMessage_head stage with h | h
    · exact not_catHeader_of_head h (by decide)
    · exact not_catHeader_of_head h (by decide)
  have hmsgNotDash : (emptyMessage stage).data.head? ≠ some '-' := by
    rcases emptyMessage_head stage with h | h <;> rw [h] <;> decide
  constructor
  · unfold renderSections
    rw [List.filter_append]
    rw [List.filter_eq_nil_iff.2 (fun a ha => by
      simp [(preambleSections_safe stage version sourceTag repo prevTag releaseDate a ha).1])]
    rw [categorySections_filter (categorizeCommits rawLog) (emptyMessage stage)
      hmsgNotHeader hdash]
    rw [List.nil_append]
  · unfold renderSections
    rw [List.mem_append]
    constructor
    · rintro (h | h)
      · exfalso
        rcases emptyMessage_cases stage with hc | hc
        · exact (preambleSections_safe stage version sourceTag repo prevTag releaseDate
            (emptyMessage stage) h).2.1 hc
        · exact (preambleSections_safe stage version sourceTag repo prevTag releaseDate
            (emptyMessage stage) h).2.2 hc
      · exact (categorySections_mem_msg (categorizeCommits rawLog) (emptyMessage stage)
          hmsgNotHeader hmsgNotDash hdash).1 h
    · intro hall
      exact Or.inr ((categorySections_mem_msg (categorizeCommits rawLog)
        (emptyMessage stage) hmsgNotHeader hmsgNotDash hdash).2 hall)

end NWave
